/-
  Formal model of the coredrain correlation engine.

  Shallow embedding of:
  - `src/lib/utils.ts` (address normalization, amount parsing),
  - `src/models/transfer.ts` (transfer store operations),
  - `src/models/system-tx.ts` (anchor store: insert, cache lookup, bracketing),
  - `src/services/finder.ts` (`findEvmHash` binary search with interpolation),
  - `src/services/evm-matcher.ts` (producer strategy selection),
  - `src/services/core-indexer.ts` (shared backoff coordinator, network call order).

  Modelling conventions:
  - MongoDB collections are lists of documents; uniqueness is on the listed key.
  - Millisecond timestamps and block numbers are `Int` (JS numbers used as
    integers in the source); decimal amount strings are modelled by their
    numeric value as `Nat`.
  - JS floating point division in the interpolation step is modelled exactly
    over the rationals; `Math.round x` is `⌊x + 1/2⌋` (JS rounds half toward
    +∞), realized as integer floor division so that terms evaluate.
  - `Effect` values are modelled as pure functions returning `Except`/`Option`;
    wall-clock fields (`elapsedMs`) are omitted.
-/
import Mathlib

namespace Coredrain

/-- One character of JS `String.prototype.toLowerCase` (ASCII range, which is
all that hex addresses contain): `A`–`Z` maps to `a`–`z`, all else unchanged. -/
def lowerChar (c : Char) : Char :=
  if 65 ≤ c.toNat ∧ c.toNat ≤ 90 then Char.ofNat (c.toNat + 32) else c

/-- JS `addr.toLowerCase()`; `normalizeAddress` in `src/lib/utils.ts`. -/
def normalizeAddress (s : String) : String := ⟨s.data.map lowerChar⟩

/-! ### Amount parsing

`parseAmount` in `src/lib/utils.ts` delegates to viem's `parseUnits`, an
external library (not code of this repository). Modelled from the spec:
a human-scale decimal string is scaled by `10^decimals`, and excess decimal
places are rounded (half-up), not truncated (spec §8 boundary behaviors). -/

/-- Numeric value of a run of ASCII digits. -/
def digitsToNat (l : List Char) : Nat :=
  l.foldl (fun a c => a * 10 + (c.toNat - 48)) 0

/-- Split a character list at the first `.` (the integer and fraction parts
of a decimal string). -/
def splitAtDot : List Char → List Char × Option (List Char)
  | [] => ([], none)
  | c :: rest =>
    if c = '.' then ([], some rest)
    else
      let p := splitAtDot rest
      (c :: p.1, p.2)

/-- Modelled from the spec: viem `parseUnits(amount, decimals)` — scale a
decimal string to smallest units, rounding (half-up) excess decimal places. -/
def parseAmount (amount : String) (decimals : Nat) : Nat :=
  let p := splitAtDot amount.data
  let i := digitsToNat p.1
  match p.2 with
  | none => i * 10 ^ decimals
  | some fracDigits =>
    let f := digitsToNat fracDigits
    let len := fracDigits.length
    if len ≤ decimals then
      i * 10 ^ decimals + f * 10 ^ (decimals - len)
    else
      let m := 10 ^ (len - decimals)
      i * 10 ^ decimals + (2 * f + m) / (2 * m)

/-! ### Anchors and block estimation (`src/services/finder.ts`) -/

/-- Anchor point for interpolation (`interface Anchor` in finder.ts). -/
structure Anchor where
  block : Int
  time : Int
  deriving Repr, DecidableEq

/-- JS `Math.round (p / q)` for integer `p`, `q` (`q ≠ 0`), with exact real
division: `⌊p/q + 1/2⌋ = ⌊(2p + q) / (2q)⌋`, rounding half toward +∞ as JS
does. `Int.fdiv` is floor division. -/
def jsRoundDiv (p q : Int) : Int :=
  if q = 0 then 0 else Int.fdiv (2 * p + q) (2 * q)

/-- `SEED_ANCHOR` in finder.ts. -/
def SEED_ANCHOR : Anchor := ⟨1, 1739849780000⟩

/-- `DEFAULT_MS_PER_BLOCK` in finder.ts. -/
def DEFAULT_MS_PER_BLOCK : Int := 1000

/-- `BATCH_SIZE` in finder.ts. -/
def BATCH_SIZE : Nat := 5

/-- `MAX_ROUNDS` in finder.ts. -/
def MAX_ROUNDS : Nat := 20

/-- `DB_SEARCH_WINDOW_MS` in finder.ts. -/
def DB_SEARCH_WINDOW_MS : Int := 120000

/-- `interpolate` in finder.ts: linear interpolation between two anchors;
a degenerate interval (equal blocks or equal times) yields `before.block`.
`targetOffset / (timeDelta / blockDelta)` is `targetOffset·blockDelta /
timeDelta` under exact division. -/
def interpolate (before after : Anchor) (targetTime : Int) : Int :=
  let timeDelta := after.time - before.time
  let blockDelta := after.block - before.block
  if blockDelta = 0 ∨ timeDelta = 0 then
    before.block
  else
    let targetOffset := targetTime - before.time
    let blockOffset := jsRoundDiv (targetOffset * blockDelta) timeDelta
    max 1 (before.block + blockOffset)

/-- `extrapolate` in finder.ts: extrapolation from a single anchor at the
default rate of `DEFAULT_MS_PER_BLOCK` ms per block. -/
def extrapolate (anchor : Anchor) (targetTime : Int) : Int :=
  let timeDiff := targetTime - anchor.time
  let blockDiff := jsRoundDiv timeDiff DEFAULT_MS_PER_BLOCK
  max 1 (anchor.block + blockDiff)

/-! ### System transactions and blocks (`src/strategies/types.ts`) -/

/-- Normalized system transaction (`SystemTx` in strategies/types.ts).
`fromAddr` is the source's `from` field (a Lean keyword). `amountWei` is the
source's decimal string, modelled by its numeric value. -/
structure SystemTx where
  hash : String
  explorerHash : String
  fromAddr : String
  assetRecipient : String
  amountWei : Nat
  contractAddress : Option String
  deriving Repr, DecidableEq

/-- A fetched block (`BlockData` in strategies/types.ts). -/
structure BlockData where
  number : Int
  hash : String
  timestamp : Int
  systemTxs : List SystemTx
  deriving Repr, DecidableEq

/-! ### Anchor store (`src/models/system-tx.ts`) -/

/-- A stored `SystemTransaction` document (collection `system_txs`). -/
structure StoredTx where
  hash : String
  explorerHash : String
  blockNumber : Int
  blockHash : String
  blockTimestamp : Int
  fromAddr : String
  assetRecipient : String
  amountWei : Nat
  contractAddress : Option String
  deriving Repr, DecidableEq

/-- The documents built by `storeBlocksSystemTxs`: blocks without system txs
are dropped, every tx is flattened with its block metadata, and the three
address fields are lowercased. -/
def storeDocs (blocks : List BlockData) : List StoredTx :=
  (blocks.filter (fun b => !b.systemTxs.isEmpty)).flatMap (fun block =>
    block.systemTxs.map (fun tx =>
      { hash := tx.hash
        explorerHash := tx.explorerHash
        blockNumber := block.number
        blockHash := block.hash
        blockTimestamp := block.timestamp
        fromAddr := normalizeAddress tx.fromAddr
        assetRecipient := normalizeAddress tx.assetRecipient
        amountWei := tx.amountWei
        contractAddress := tx.contractAddress.map normalizeAddress }))

/-- `insertMany (ordered: false)` against the unique index on `hash`:
documents whose `hash` is already present are silently skipped. -/
def insertAnchors (store : List StoredTx) (docs : List StoredTx) : List StoredTx :=
  docs.foldl (fun st d => if st.any (fun x => x.hash == d.hash) then st else st ++ [d]) store

/-- `storeBlocksSystemTxs blocks` applied to a store. -/
def storeBlocksSystemTxs (store : List StoredTx) (blocks : List BlockData) : List StoredTx :=
  insertAnchors store (storeDocs blocks)

/-- Projection used by `findBracketingAnchors` (`BlockAnchor` in system-tx.ts). -/
structure BlockAnchor where
  blockNumber : Int
  blockTimestamp : Int
  deriving Repr, DecidableEq

/-- `findOne` with a sort direction, over a pre-filtered document list: the
first document that every later candidate fails to improve on (`better x y`
reads "x sorts strictly before y"). -/
def pickBy {α : Type} (better : α → α → Bool) (l : List α) : Option α :=
  l.foldl
    (fun acc tx =>
      match acc with
      | none => some tx
      | some b => if better tx b then some tx else some b)
    none

/-- `findOne  sort({blockTimestamp: -1})` over `blockTimestamp ≤ target`:
a document with maximal timestamp among those at or before the target
(first such document if several share the timestamp). -/
def latestAtOrBefore (store : List StoredTx) (targetTime : Int) : Option StoredTx :=
  pickBy (fun tx b => decide (tx.blockTimestamp > b.blockTimestamp))
    (store.filter (fun tx => decide (tx.blockTimestamp ≤ targetTime)))

/-- `findOne  sort({blockTimestamp: 1})` over `blockTimestamp > target`:
a document with minimal timestamp strictly after the target. -/
def earliestAfter (store : List StoredTx) (targetTime : Int) : Option StoredTx :=
  pickBy (fun tx b => decide (tx.blockTimestamp < b.blockTimestamp))
    (store.filter (fun tx => decide (tx.blockTimestamp > targetTime)))

/-- `findBracketingAnchors` in system-tx.ts: the closest stored tx at or
before the target time and the closest strictly after, projected to
`{blockNumber, blockTimestamp}`. -/
def findBracketingAnchors (store : List StoredTx) (targetTime : Int) :
    Option BlockAnchor × Option BlockAnchor :=
  ((latestAtOrBefore store targetTime).map fun tx => ⟨tx.blockNumber, tx.blockTimestamp⟩,
   (earliestAfter store targetTime).map fun tx => ⟨tx.blockNumber, tx.blockTimestamp⟩)

/-- Parameters of `findMatchingTx` in system-tx.ts. -/
structure MatchQuery where
  fromAddr : String
  assetRecipient : String
  amountWei : Nat
  minTime : Int
  maxTime : Int

/-- The filter of the `findMatchingTx` query: equality on the lowercased
`from`/`assetRecipient` parameters, equality on the amount, and
`blockTimestamp` within `[minTime, maxTime]` (both inclusive). -/
def matchQueryFilter (p : MatchQuery) (tx : StoredTx) : Bool :=
  tx.fromAddr == normalizeAddress p.fromAddr &&
  tx.assetRecipient == normalizeAddress p.assetRecipient &&
  tx.amountWei == p.amountWei &&
  decide (p.minTime ≤ tx.blockTimestamp) &&
  decide (tx.blockTimestamp ≤ p.maxTime)

/-- `findOne  sort({blockTimestamp: 1})` over the match filter: an earliest
matching document, or none. -/
def findMatchingTx (store : List StoredTx) (p : MatchQuery) : Option StoredTx :=
  pickBy (fun tx b => decide (tx.blockTimestamp < b.blockTimestamp))
    (store.filter (matchQueryFilter p))

/-! ### The finder (`src/services/finder.ts`) -/

/-- The fields of a `Transfer` document consumed by the engine
(`src/models/transfer.ts`, HyperCore side). -/
structure Transfer where
  hypercoreHash : String
  hypercoreTime : Int
  token : String
  amount : String
  usdcValue : Option String
  fee : Option String
  nativeTokenFee : Option String
  user : String
  systemAddress : String
  watchedAddress : String
  contractAddress : Option String
  deriving Repr, DecidableEq

/-- A block fetcher (`BlockFetcherService.fetchBlocks`): total function from a
batch of block numbers to blocks or a fetch error. -/
def Fetcher : Type := List Int → Except Unit (List BlockData)

/-- `matchesTx` in finder.ts: all three of sender system address, recipient
and amount must agree (`user` and `systemAddress` arrive already normalized). -/
def matchesTx (tx : SystemTx) (user systemAddress : String) (expectedAmount : Nat) : Bool :=
  if normalizeAddress tx.fromAddr != systemAddress then false
  else if normalizeAddress tx.assetRecipient != user then false
  else tx.amountWei == expectedAmount

/-- `searchBlocks` in finder.ts: first matching transaction in fetch order. -/
def searchBlocks (blocks : List BlockData) (user systemAddress : String)
    (expectedAmount : Nat) : Option (BlockData × SystemTx) :=
  match blocks with
  | [] => none
  | b :: rest =>
    match b.systemTxs.find? (fun tx => matchesTx tx user systemAddress expectedAmount) with
    | some tx => some (b, tx)
    | none => searchBlocks rest user systemAddress expectedAmount

/-- Result of a successful find (`FindResult` in finder.ts). The matched
transaction is carried whole; the source's `hash`, `explorerHash` and
`contractAddress` fields are its projections. `elapsedMs` is wall clock and
omitted. -/
structure FindResultM where
  tx : SystemTx
  block : Int
  blockHash : String
  blockTime : Int
  blocksSearched : Nat
  rounds : Nat
  deriving Repr, DecidableEq

/-- Outcome of `findEvmHash`: success, `NotFoundError` (with its
`blocksSearched` payload), or a propagated fetch error. -/
inductive FindOutcome where
  | found (r : FindResultM)
  | notFound (blocksSearched : Nat)
  | fetchError
  deriving Repr, DecidableEq

/-- The batch of block numbers built in each round of `findEvmHash`:
`BATCH_SIZE` contiguous numbers centered on the estimate, shifted to avoid
crossing either bound, clamped at 1, truncated at the upper bound. -/
def buildBatch (estimate : Int) (lower : Anchor) (upper : Option Anchor) : List Int :=
  let halfBatch : Int := (BATCH_SIZE : Int) / 2
  let start0 := max 1 (estimate - halfBatch)
  let start1 :=
    match upper with
    | some u =>
      if start0 + (BATCH_SIZE : Int) > u.block then
        max lower.block (u.block - (BATCH_SIZE : Int) + 1)
      else start0
    | none => start0
  let batchStart := max lower.block start1
  ((List.range BATCH_SIZE).map (fun i => batchStart + (i : Int))).takeWhile
    (fun b =>
      match upper with
      | some u => decide (b ≤ u.block)
      | none => true)

/-- The candidate new lower bound: among fetched blocks at or before the
target time, the one with the largest number (first seen on ties). -/
def bestLowerBlock (blocks : List BlockData) (targetTime : Int) : Option BlockData :=
  blocks.foldl
    (fun acc b =>
      if b.timestamp ≤ targetTime then
        match acc with
        | none => some b
        | some x => if b.number > x.number then some b else some x
      else acc)
    none

/-- The candidate new upper bound: among fetched blocks strictly after the
target time, the one with the smallest number (first seen on ties). -/
def bestUpperBlock (blocks : List BlockData) (targetTime : Int) : Option BlockData :=
  blocks.foldl
    (fun acc b =>
      if b.timestamp > targetTime then
        match acc with
        | none => some b
        | some x => if b.number < x.number then some b else some x
      else acc)
    none

/-- Raise the lower bound if the candidate is strictly tighter. -/
def tightenLower (lower : Anchor) (nb : Option BlockData) : Anchor :=
  match nb with
  | some b => if b.number > lower.block then ⟨b.number, b.timestamp⟩ else lower
  | none => lower

/-- Lower the upper bound if the candidate is strictly tighter (or install it
when there was none). -/
def tightenUpper (upper : Option Anchor) (nb : Option BlockData) : Option Anchor :=
  match nb with
  | some b =>
    match upper with
    | none => some ⟨b.number, b.timestamp⟩
    | some u => if b.number < u.block then some ⟨b.number, b.timestamp⟩ else some u
  | none => upper

/-- The per-round block estimate: interpolate and clamp into the bounds when
an upper bound exists, otherwise extrapolate from the lower bound. -/
def estimateOf (lower : Anchor) (upper : Option Anchor) (targetTime : Int) : Int :=
  match upper with
  | some u => max lower.block (min u.block (interpolate lower u targetTime))
  | none => extrapolate lower targetTime

/-- The `for (round = 0; round < MAX_ROUNDS; round++)` loop of `findEvmHash`,
by structural recursion on the remaining rounds (`fuel` starts at
`MAX_ROUNDS`). Returns the outcome paired with the number of fetcher
invocations. Background anchor stores do not affect the running search and
are not threaded here (`storeBlocksBackground` is fire-and-forget). -/
def searchLoop (fetcher : Fetcher) (user systemAddress : String)
    (expectedAmount : Nat) (targetTime : Int) :
    Nat → Nat → Anchor → Option Anchor → Nat → Nat → FindOutcome × Nat
  | 0, _, _, _, blocksSearched, fetchCalls => (.notFound blocksSearched, fetchCalls)
  | fuel + 1, roundIdx, lower, upper, blocksSearched, fetchCalls =>
    let blockNumbers := buildBatch (estimateOf lower upper targetTime) lower upper
    if blockNumbers.isEmpty then (.notFound blocksSearched, fetchCalls)
    else
      match fetcher blockNumbers with
      | .error _ => (.fetchError, fetchCalls + 1)
      | .ok blocks =>
        let bs := blocksSearched + blocks.length
        if blocks.isEmpty then
          searchLoop fetcher user systemAddress expectedAmount targetTime
            fuel (roundIdx + 1) lower upper bs (fetchCalls + 1)
        else
          match searchBlocks blocks user systemAddress expectedAmount with
          | some (b, tx) =>
            (.found ⟨tx, b.number, b.hash, b.timestamp, bs, roundIdx + 1⟩, fetchCalls + 1)
          | none =>
            let lower2 := tightenLower lower (bestLowerBlock blocks targetTime)
            let upper2 := tightenUpper upper (bestUpperBlock blocks targetTime)
            match upper2 with
            | some u2 =>
              if u2.block ≤ lower2.block + 1 then (.notFound bs, fetchCalls + 1)
              else
                searchLoop fetcher user systemAddress expectedAmount targetTime
                  fuel (roundIdx + 1) lower2 (some u2) bs (fetchCalls + 1)
            | none =>
              searchLoop fetcher user systemAddress expectedAmount targetTime
                fuel (roundIdx + 1) lower2 none bs (fetchCalls + 1)

/-- The expected amount in smallest units computed by `findEvmHash`:
`parseAmount(transfer.amount, evmDecimals)` with `evmDecimals` from the asset
cache lookup on the normalized system address (default 18). -/
def expectedAmountOf (t : Transfer) (assets : String → Option Nat) : Nat :=
  parseAmount t.amount ((assets (normalizeAddress t.systemAddress)).getD 18)

/-- The cache-probe query issued by `findEvmHash`: the match tuple over the
window `[coreTime − 5 s, coreTime + DB_SEARCH_WINDOW_MS]`. -/
def cacheQuery (t : Transfer) (assets : String → Option Nat) : MatchQuery :=
  ⟨normalizeAddress t.systemAddress, normalizeAddress t.user, expectedAmountOf t assets,
    t.hypercoreTime - 5000, t.hypercoreTime + DB_SEARCH_WINDOW_MS⟩

/-- The initial search bounds of `findEvmHash`: the bracketing anchors, with
the lower bound defaulting to `SEED_ANCHOR` and the upper possibly absent. -/
def initialBounds (store : List StoredTx) (targetTime : Int) : Anchor × Option Anchor :=
  let br := findBracketingAnchors store targetTime
  (match br.1 with
   | some a => ⟨a.blockNumber, a.blockTimestamp⟩
   | none => SEED_ANCHOR,
   br.2.map fun a => ⟨a.blockNumber, a.blockTimestamp⟩)

/-- `findEvmHash` in finder.ts. `assets` is the asset cache lookup
(`getAssetBySystemAddress`, keyed by normalized system address, yielding
`evmDecimals`); the on-demand refresh re-reads the same mapping and is the
identity here. Store queries are modelled as non-failing (the source catches
their errors into the same fallbacks). Returns the outcome paired with the
number of block-fetcher invocations. -/
def findEvmHash (t : Transfer) (fetcher : Fetcher) (store : List StoredTx)
    (assets : String → Option Nat) : FindOutcome × Nat :=
  let targetTime := t.hypercoreTime
  let user := normalizeAddress t.user
  let systemAddress := normalizeAddress t.systemAddress
  let expectedAmount := expectedAmountOf t assets
  match findMatchingTx store (cacheQuery t assets) with
  | some dbMatch =>
    (.found
      ⟨⟨dbMatch.hash, dbMatch.explorerHash, dbMatch.fromAddr, dbMatch.assetRecipient,
        dbMatch.amountWei, dbMatch.contractAddress⟩,
        dbMatch.blockNumber, dbMatch.blockHash, dbMatch.blockTimestamp, 0, 0⟩, 0)
  | none =>
    let bounds := initialBounds store targetTime
    searchLoop fetcher user systemAddress expectedAmount targetTime
      MAX_ROUNDS 0 bounds.1 bounds.2 0 0

/-! ### Transfer store (`src/models/transfer.ts`) -/

/-- `TransferStatus` enum. -/
inductive TransferStatus where
  | pending
  | matched
  | failed
  deriving Repr, DecidableEq

/-- A stored `Transfer` document (collection `transfers`): the HyperCore
fields from insertion, the HyperEVM fields (null until matched), the status
and the failure reason. -/
structure StoredTransfer where
  hypercoreHash : String
  hypercoreTime : Int
  token : String
  amount : String
  usdcValue : Option String
  fee : Option String
  nativeTokenFee : Option String
  user : String
  systemAddress : String
  watchedAddress : String
  contractAddress : Option String
  hyperevmHash : Option String
  hyperevmExplorerHash : Option String
  hyperevmBlock : Option Int
  hyperevmBlockHash : Option String
  hyperevmTime : Option Int
  status : TransferStatus
  failReason : Option String
  deriving Repr, DecidableEq

/-- The document built for a new transfer by `insertTransfersBatch`:
HyperCore fields copied, EVM fields null, status PENDING, no fail reason. -/
def newTransferDoc (t : Transfer) : StoredTransfer :=
  { hypercoreHash := t.hypercoreHash
    hypercoreTime := t.hypercoreTime
    token := t.token
    amount := t.amount
    usdcValue := t.usdcValue
    fee := t.fee
    nativeTokenFee := t.nativeTokenFee
    user := t.user
    systemAddress := t.systemAddress
    watchedAddress := t.watchedAddress
    contractAddress := t.contractAddress
    hyperevmHash := none
    hyperevmExplorerHash := none
    hyperevmBlock := none
    hyperevmBlockHash := none
    hyperevmTime := none
    status := .pending
    failReason := none }

/-- Whether a document with the given `hypercoreHash` is in the store
(the unique index on `hypercoreHash`). -/
def hashPresent (store : List StoredTransfer) (h : String) : Bool :=
  store.any (fun d => d.hypercoreHash == h)

/-- `BatchInsertResult` in transfer.ts. -/
structure BatchInsertResult where
  inserted : Nat
  duplicates : Nat
  deriving Repr, DecidableEq

/-- `insertTransfersBatch` in transfer.ts: `insertMany (ordered: false)` —
each document is attempted in order; a duplicate `hypercoreHash` is skipped
and counted, anything new is inserted as a PENDING document and counted. -/
def insertTransfersBatch :
    List Transfer → List StoredTransfer → BatchInsertResult × List StoredTransfer
  | [], store => (⟨0, 0⟩, store)
  | t :: rest, store =>
    if hashPresent store t.hypercoreHash then
      let r := insertTransfersBatch rest store
      (⟨r.1.inserted, r.1.duplicates + 1⟩, r.2)
    else
      let r := insertTransfersBatch rest (store ++ [newTransferDoc t])
      (⟨r.1.inserted + 1, r.1.duplicates⟩, r.2)

/-- The `$set` payload of `markTransferMatched` (its `evmData` argument). -/
structure EvmData where
  hyperevmHash : String
  hyperevmExplorerHash : String
  hyperevmBlock : Int
  hyperevmBlockHash : String
  hyperevmTime : Int
  contractAddress : Option String
  deriving Repr, DecidableEq

/-- `markTransferMatched` in transfer.ts: `updateOne({hypercoreHash}, {$set:
{...evmData, status: MATCHED, failReason: null}})` — unconditional on the
current status. -/
def markTransferMatched (h : String) (evm : EvmData)
    (store : List StoredTransfer) : List StoredTransfer :=
  store.map fun d =>
    if d.hypercoreHash == h then
      { d with
        hyperevmHash := some evm.hyperevmHash
        hyperevmExplorerHash := some evm.hyperevmExplorerHash
        hyperevmBlock := some evm.hyperevmBlock
        hyperevmBlockHash := some evm.hyperevmBlockHash
        hyperevmTime := some evm.hyperevmTime
        contractAddress := evm.contractAddress
        status := .matched
        failReason := none }
    else d

/-- `markTransferFailed` in transfer.ts: `updateOne({hypercoreHash}, {$set:
{status: FAILED, failReason: reason}})` — unconditional on the current
status. -/
def markTransferFailed (h : String) (reason : String)
    (store : List StoredTransfer) : List StoredTransfer :=
  store.map fun d =>
    if d.hypercoreHash == h then
      { d with status := .failed, failReason := some reason }
    else d

/-- The write operations of the system on the transfer store. -/
inductive TransferOp where
  | insertBatch (batch : List Transfer)
  | markMatched (h : String) (evm : EvmData)
  | markFailed (h : String) (reason : String)

/-- Apply one transfer-store operation. -/
def applyTransferOp (store : List StoredTransfer) : TransferOp → List StoredTransfer
  | .insertBatch batch => (insertTransfersBatch batch store).2
  | .markMatched h evm => markTransferMatched h evm store
  | .markFailed h reason => markTransferFailed h reason store

/-- Status of the (first) document with the given hash. -/
def statusOf (store : List StoredTransfer) (h : String) : Option TransferStatus :=
  (store.find? (fun d => d.hypercoreHash == h)).map (·.status)

/-! ### Matcher producer (`src/services/evm-matcher.ts`) -/

/-- `QUEUE_LOW_WATERMARK` in evm-matcher.ts. -/
def QUEUE_LOW_WATERMARK : Nat := 100

/-- `QUEUE_CAPACITY` in evm-matcher.ts. -/
def QUEUE_CAPACITY : Nat := 2048

/-- `EVM_MATCHER_BATCH_SIZE` in config.ts. -/
def EVM_MATCHER_BATCH_SIZE : Nat := 256

/-- `BACKFILL_THRESHOLD` in config.ts. -/
def BACKFILL_THRESHOLD : Nat := 10

/-- The two fetcher strategies the producer switches between. -/
inductive FetcherKind where
  | s3
  | rpc
  deriving Repr, DecidableEq

/-- The producer-side state of the matcher pool: the bounded queue, the
process-local dedup set of queued hashes (a JS `Set`, insertion-ordered),
and the active fetcher reference. -/
structure ProducerState where
  queue : List Transfer
  queuedHashes : List String
  fetcher : FetcherKind
  deriving Repr, DecidableEq

/-- One iteration of the matcher's `producer` loop (one refill interval),
given the stored pending count (`getTransferStats.pending`) and the
oldest-first pending transfers (`getPendingTransfers`): only when the queue
is below the low watermark does it re-select the fetcher strategy and
enqueue un-queued pending transfers, bounding the dedup set at 10000
(retaining the most recent 5000). -/
def producerStep (st : ProducerState) (pendingCount : Nat)
    (pendingDb : List Transfer) : ProducerState :=
  if st.queue.length < QUEUE_LOW_WATERMARK then
    let isBackfill := pendingCount > BACKFILL_THRESHOLD
    let newFetcher := if isBackfill then FetcherKind.s3 else FetcherKind.rpc
    if pendingCount > 0 then
      let batchSize := min (QUEUE_CAPACITY - st.queue.length) EVM_MATCHER_BATCH_SIZE
      let pending := pendingDb.take batchSize
      let toAdd := pending.filter (fun t => !st.queuedHashes.contains t.hypercoreHash)
      let newHashes := toAdd.map (·.hypercoreHash)
      let queuedHashes2 :=
        if newHashes.length > 0 then
          let s := st.queuedHashes ++ newHashes
          if s.length > 10000 then s.drop (s.length - 5000) else s
        else st.queuedHashes
      { queue := st.queue ++ toAdd, queuedHashes := queuedHashes2, fetcher := newFetcher }
    else
      { st with fetcher := newFetcher }
  else st

/-! ### Shared backoff coordinator (`src/services/core-indexer.ts`, `makeBackoff`) -/

/-- The two operations on the shared backoff deadline. `wait` only reads the
deadline (and sleeps); `trigger` pushes it with
`Math.max(prev, Date.now() + retryAfterMs)`. -/
inductive BackoffOp where
  | wait
  | trigger (now : Int) (retryAfterMs : Int)

/-- Effect of one backoff operation on the deadline (`backoffUntil`). -/
def backoffStep (deadline : Int) : BackoffOp → Int
  | .wait => deadline
  | .trigger now retryAfterMs => max deadline (now + retryAfterMs)

/-! ### Outbound-call order (`core-indexer.ts`, `strategies/rpc.ts`, `strategies/s3.ts`)

Abstract event traces of the network-facing code paths: which outbound
requests each path issues, and where it consults the shared backoff. -/

/-- An observable network-discipline event. -/
inductive NetEvent where
  | backoffWait
  | netRequest
  deriving Repr, DecidableEq

/-- Trace of `fetchUpdates` in core-indexer.ts: `yield* backoff.wait` and
then the HTTP POST to the CORE API. -/
def fetchUpdatesTrace : List NetEvent := [.backoffWait, .netRequest]

/-- Trace of `rpcBatch` in strategies/rpc.ts: a single HTTP POST to the RPC
endpoint; no backoff consultation appears in that module. -/
def rpcBatchTrace : List NetEvent := [.netRequest]

/-- Trace of the RPC fetcher's `fetchBlocks` over `chunks` sequential
chunks: one `rpcBatch` per chunk. -/
def rpcFetchBlocksTrace (chunks : Nat) : List NetEvent :=
  (List.range chunks).flatMap fun _ => rpcBatchTrace

/-- Trace of one `fetchBlock` of the S3 fetcher in strategies/s3.ts: a
signed HTTPS GET; no backoff consultation appears in that module. -/
def s3FetchBlockTrace : List NetEvent := [.netRequest]

/-- Trace of the S3 fetcher's `fetchBlocks` over `n` blocks (unbounded
concurrency; any interleaving contains these events). -/
def s3FetchBlocksTrace (n : Nat) : List NetEvent :=
  (List.range n).flatMap fun _ => s3FetchBlockTrace

/-- Whether every `netRequest` in a trace is preceded by some
`backoffWait` (the flag records whether a wait was already seen). -/
def callsGuardedAux (seenWait : Bool) : List NetEvent → Bool
  | [] => true
  | .backoffWait :: rest => callsGuardedAux true rest
  | .netRequest :: rest => seenWait && callsGuardedAux seenWait rest

/-- Every outbound request of the trace waits on the shared backoff first. -/
def callsGuarded (t : List NetEvent) : Bool := callsGuardedAux false t

/-! ### Concrete sample inputs for witnesses -/

/-- A sample transfer: 100 HYPE-like units to `0xUSER` at core time 1000. -/
def sampleTransfer : Transfer :=
  ⟨"corehash1", 1000, "HYPE", "100", none, none, none, "0xUSER", "0x2222", "0xwatched", none⟩

/-- A stored anchor matching `sampleTransfer`'s tuple at timestamp 1000. -/
def sampleStoredTx : StoredTx :=
  ⟨"evmhash1", "exphash1", 5, "blockhash1", 1000, "0x2222", "0xuser", 100, none⟩

/-- A fetcher that always succeeds with no blocks. -/
def emptyFetcher : Fetcher := fun _ => Except.ok []

/-- An asset lookup mapping everything to 0 decimals. -/
def sampleAssets : String → Option Nat := fun _ => some 0

/-- The result the finder produces for `sampleTransfer` on the cache-hit path. -/
def sampleResult : FindResultM :=
  ⟨⟨"evmhash1", "exphash1", "0x2222", "0xuser", 100, none⟩, 5, "blockhash1", 1000, 0, 0⟩

/-- A non-matching anchor below core time 1000 (block 10). -/
def sampleLoTx : StoredTx := ⟨"a1", "e1", 10, "bh1", 500, "0xother", "0xother", 1, none⟩

/-- A non-matching anchor above core time 1000 (adjacent block 11). -/
def sampleHiTx : StoredTx := ⟨"a2", "e2", 11, "bh2", 2000, "0xother", "0xother", 1, none⟩

/-- A block with no system transactions. -/
def sampleEmptyBlock : BlockData := ⟨12, "bh", 500, []⟩

/-- A fetcher that always returns one empty block. -/
def oneBlockFetcher : Fetcher := fun _ => Except.ok [sampleEmptyBlock]

/-- A stored transfer already in the MATCHED state (hash `corehash1`). -/
def sampleMatchedDoc : StoredTransfer :=
  { newTransferDoc sampleTransfer with status := TransferStatus.matched }

/-- A fetched block carrying one mixed-case system transaction. -/
def sampleBlockWithTx : BlockData :=
  ⟨5, "bh", 1000, [⟨"h", "eh", "0xABC", "0xDEF", 7, some "0xC"⟩]⟩

/-- The anchor document `storeDocs` builds for `sampleBlockWithTx`. -/
def sampleDoc : StoredTx := ⟨"h", "eh", 5, "bh", 1000, "0xabc", "0xdef", 7, some "0xc"⟩

/-- A case variant of `sampleTransfer` (recipient and system address
uppercased). -/
def sampleTransferUpper : Transfer :=
  ⟨"corehash1", 1000, "HYPE", "100", none, none, none, "0XUSER", "0X2222", "0xwatched", none⟩

/-! ### Theorems -/

/-! ### Address normalization (`src/lib/utils.ts`) -/

/-- `(Char.ofNat n).toNat = n` for code points below the surrogate range. -/
theorem char_toNat_ofNat (n : Nat) (h : n < 55296) : (Char.ofNat n).toNat = n := by
  have hv : Nat.isValidChar n := Or.inl h
  simp only [Char.ofNat, dif_pos hv]
  rfl

theorem lowerChar_toNat_of_upper (c : Char) (h : 65 ≤ c.toNat ∧ c.toNat ≤ 90) :
    (lowerChar c).toNat = c.toNat + 32 := by
  rw [lowerChar, if_pos h]
  exact char_toNat_ofNat _ (by omega)

theorem lowerChar_idem (c : Char) : lowerChar (lowerChar c) = lowerChar c := by
  by_cases h : 65 ≤ c.toNat ∧ c.toNat ≤ 90
  · have ht := lowerChar_toNat_of_upper c h
    have hn : ¬(65 ≤ (lowerChar c).toNat ∧ (lowerChar c).toNat ≤ 90) := by omega
    show (if 65 ≤ (lowerChar c).toNat ∧ (lowerChar c).toNat ≤ 90 then
        Char.ofNat ((lowerChar c).toNat + 32) else lowerChar c) = lowerChar c
    exact if_neg hn
  · have e : lowerChar c = c := if_neg h
    rw [e]
    exact e

theorem map_lowerChar_idem (l : List Char) :
    (l.map lowerChar).map lowerChar = l.map lowerChar := by
  induction l with
  | nil => rfl
  | cons c rest ih => simp [lowerChar_idem, ih]

theorem normalizeAddress_idem (s : String) :
    normalizeAddress (normalizeAddress s) = normalizeAddress s :=
  congrArg String.mk (map_lowerChar_idem s.data)

example : parseAmount "100.5" 18 = 100500000000000000000 := by decide

example : interpolate ⟨100, 1000⟩ ⟨200, 1000⟩ 5000 = 100 := by decide

example : extrapolate ⟨100, 1000⟩ 5000 = 104 := by decide

/-! ### Helper lemmas -/

theorem pickBy_go_mem {α : Type} (f : α → α → Bool) :
    ∀ (l : List α) (acc : Option α) (m : α),
      List.foldl
        (fun acc tx =>
          match acc with
          | none => some tx
          | some b => if f tx b then some tx else some b)
        acc l = some m →
      m ∈ l ∨ acc = some m := by
  intro l
  induction l with
  | nil =>
    intro acc m h
    exact Or.inr h
  | cons x rest ih =>
    intro acc m h
    rw [List.foldl_cons] at h
    rcases ih _ m h with hmem | hacc
    · exact Or.inl (List.mem_cons_of_mem _ hmem)
    · cases acc with
      | none =>
        simp only [Option.some.injEq] at hacc
        exact Or.inl (hacc ▸ List.mem_cons_self x rest)
      | some b =>
        have hacc' : (if f x b then some x else some b) = some m := hacc
        by_cases hf : f x b
        · rw [if_pos hf] at hacc'
          simp only [Option.some.injEq] at hacc'
          exact Or.inl (hacc' ▸ List.mem_cons_self x rest)
        · rw [if_neg hf] at hacc'
          exact Or.inr hacc'

theorem pickBy_mem {α : Type} (f : α → α → Bool) (l : List α) (m : α)
    (h : pickBy f l = some m) : m ∈ l := by
  rcases pickBy_go_mem f l none m h with hm | hacc
  · exact hm
  · exact absurd hacc (by simp)

theorem pickBy_go_isSome {α : Type} (f : α → α → Bool) :
    ∀ (l : List α) (b : α),
      (List.foldl
        (fun acc tx =>
          match acc with
          | none => some tx
          | some b => if f tx b then some tx else some b)
        (some b) l).isSome = true := by
  intro l
  induction l with
  | nil => intro b; rfl
  | cons x rest ih =>
    intro b
    rw [List.foldl_cons]
    by_cases hf : f x b
    · simpa [hf] using ih x
    · simpa [hf] using ih b

theorem pickBy_isSome {α : Type} (f : α → α → Bool) (l : List α) (hl : l ≠ []) :
    (pickBy f l).isSome = true := by
  cases l with
  | nil => exact absurd rfl hl
  | cons x rest =>
    rw [pickBy, List.foldl_cons]
    exact pickBy_go_isSome f rest x

theorem matchesTx_eq_true_iff (tx : SystemTx) (user systemAddress : String)
    (expectedAmount : Nat) :
    matchesTx tx user systemAddress expectedAmount = true ↔
      normalizeAddress tx.fromAddr = systemAddress ∧
      normalizeAddress tx.assetRecipient = user ∧
      tx.amountWei = expectedAmount := by
  unfold matchesTx
  by_cases h1 : normalizeAddress tx.fromAddr = systemAddress
  · by_cases h2 : normalizeAddress tx.assetRecipient = user
    · simp [h1, h2]
    · simp [h1, h2]
  · simp [h1]

theorem matchQueryFilter_eq_true_iff (p : MatchQuery) (tx : StoredTx) :
    matchQueryFilter p tx = true ↔
      tx.fromAddr = normalizeAddress p.fromAddr ∧
      tx.assetRecipient = normalizeAddress p.assetRecipient ∧
      tx.amountWei = p.amountWei ∧
      p.minTime ≤ tx.blockTimestamp ∧
      tx.blockTimestamp ≤ p.maxTime := by
  simp [matchQueryFilter, and_assoc]

theorem searchBlocks_found_matches (blocks : List BlockData)
    (user systemAddress : String) (expectedAmount : Nat) (b : BlockData) (tx : SystemTx)
    (h : searchBlocks blocks user systemAddress expectedAmount = some (b, tx)) :
    matchesTx tx user systemAddress expectedAmount = true := by
  induction blocks with
  | nil => exact absurd h (by simp [searchBlocks])
  | cons blk rest ih =>
    rw [searchBlocks] at h
    cases hfind : blk.systemTxs.find?
        (fun tx => matchesTx tx user systemAddress expectedAmount) with
    | none =>
      rw [hfind] at h
      exact ih h
    | some txf =>
      rw [hfind] at h
      have := List.find?_some hfind
      simp only [Option.some.injEq, Prod.mk.injEq] at h
      rw [← h.2]
      exact this

theorem searchLoop_zero (fetcher : Fetcher) (user systemAddress : String)
    (expectedAmount : Nat) (targetTime : Int) (roundIdx : Nat) (lower : Anchor)
    (upper : Option Anchor) (bs fc : Nat) :
    searchLoop fetcher user systemAddress expectedAmount targetTime
      0 roundIdx lower upper bs fc = (.notFound bs, fc) := rfl

theorem searchLoop_succ (fetcher : Fetcher) (user systemAddress : String)
    (expectedAmount : Nat) (targetTime : Int) (fuel roundIdx : Nat) (lower : Anchor)
    (upper : Option Anchor) (bs fc : Nat) :
    searchLoop fetcher user systemAddress expectedAmount targetTime
      (fuel + 1) roundIdx lower upper bs fc =
    (if (buildBatch (estimateOf lower upper targetTime) lower upper).isEmpty then
      (.notFound bs, fc)
    else
      match fetcher (buildBatch (estimateOf lower upper targetTime) lower upper) with
      | .error _ => (.fetchError, fc + 1)
      | .ok blocks =>
        if blocks.isEmpty then
          searchLoop fetcher user systemAddress expectedAmount targetTime
            fuel (roundIdx + 1) lower upper (bs + blocks.length) (fc + 1)
        else
          match searchBlocks blocks user systemAddress expectedAmount with
          | some (b, tx) =>
            (.found ⟨tx, b.number, b.hash, b.timestamp, bs + blocks.length, roundIdx + 1⟩,
              fc + 1)
          | none =>
            match tightenUpper upper (bestUpperBlock blocks targetTime) with
            | some u2 =>
              if u2.block ≤ (tightenLower lower (bestLowerBlock blocks targetTime)).block + 1 then
                (.notFound (bs + blocks.length), fc + 1)
              else
                searchLoop fetcher user systemAddress expectedAmount targetTime
                  fuel (roundIdx + 1) (tightenLower lower (bestLowerBlock blocks targetTime))
                  (some u2) (bs + blocks.length) (fc + 1)
            | none =>
              searchLoop fetcher user systemAddress expectedAmount targetTime
                fuel (roundIdx + 1) (tightenLower lower (bestLowerBlock blocks targetTime))
                none (bs + blocks.length) (fc + 1)) := rfl

theorem searchLoop_fetchCalls_le (fetcher : Fetcher) (user systemAddress : String)
    (expectedAmount : Nat) (targetTime : Int) :
    ∀ (fuel roundIdx : Nat) (lower : Anchor) (upper : Option Anchor) (bs fc : Nat),
      (searchLoop fetcher user systemAddress expectedAmount targetTime
        fuel roundIdx lower upper bs fc).2 ≤ fc + fuel := by
  intro fuel
  induction fuel with
  | zero =>
    intro roundIdx lower upper bs fc
    rw [searchLoop_zero]
    simp
  | succ n ih =>
    intro roundIdx lower upper bs fc
    rw [searchLoop_succ]
    split
    · simp
    · split
      · simp
      · split
        · exact le_trans (ih _ _ _ _ _) (by omega)
        · split
          · simp
          · split
            · split
              · simp
              · exact le_trans (ih _ _ _ _ _) (by omega)
            · exact le_trans (ih _ _ _ _ _) (by omega)

theorem searchLoop_found_matches (fetcher : Fetcher) (user systemAddress : String)
    (expectedAmount : Nat) (targetTime : Int) :
    ∀ (fuel roundIdx : Nat) (lower : Anchor) (upper : Option Anchor) (bs fc : Nat)
      (r : FindResultM) (n : Nat),
      searchLoop fetcher user systemAddress expectedAmount targetTime
        fuel roundIdx lower upper bs fc = (.found r, n) →
      matchesTx r.tx user systemAddress expectedAmount = true := by
  intro fuel
  induction fuel with
  | zero =>
    intro roundIdx lower upper bs fc r n h
    rw [searchLoop_zero] at h
    simp at h
  | succ m ih =>
    intro roundIdx lower upper bs fc r n h
    rw [searchLoop_succ] at h
    split at h
    · simp at h
    · split at h
      · simp at h
      · split at h
        · exact ih _ _ _ _ _ _ _ h
        · split at h
          · rename_i b tx hsearch
            simp only [Prod.mk.injEq, FindOutcome.found.injEq] at h
            have htx : r.tx = tx := by rw [← h.1]
            rw [htx]
            exact searchBlocks_found_matches _ _ _ _ _ _ hsearch
          · split at h
            · split at h
              · simp at h
              · exact ih _ _ _ _ _ _ _ h
            · exact ih _ _ _ _ _ _ _ h

theorem tightenLower_block_le (lower : Anchor) (nb : Option BlockData) :
    lower.block ≤ (tightenLower lower nb).block := by
  cases nb with
  | none => exact le_refl _
  | some b =>
    rw [tightenLower]
    by_cases hb : b.number > lower.block
    · rw [if_pos hb]
      exact le_of_lt hb
    · rw [if_neg hb]

theorem tightenUpper_of_some (u : Anchor) (nb : Option BlockData) :
    ∃ u2, tightenUpper (some u) nb = some u2 ∧ u2.block ≤ u.block := by
  cases nb with
  | none => exact ⟨u, rfl, le_refl _⟩
  | some b =>
    rw [tightenUpper]
    by_cases hb : b.number < u.block
    · rw [if_pos hb]
      exact ⟨⟨b.number, b.timestamp⟩, rfl, le_of_lt hb⟩
    · rw [if_neg hb]
      exact ⟨u, rfl, le_refl _⟩

theorem searchLoop_notFound_of_no_match (fetcher : Fetcher)
    (user systemAddress : String) (expectedAmount : Nat) (targetTime : Int)
    (hf : ∀ ns, ∃ blocks, fetcher ns = Except.ok blocks ∧
      searchBlocks blocks user systemAddress expectedAmount = none) :
    ∀ (fuel roundIdx : Nat) (lower : Anchor) (upper : Option Anchor) (bs fc : Nat),
      ∃ n m, searchLoop fetcher user systemAddress expectedAmount targetTime
        fuel roundIdx lower upper bs fc = (.notFound n, m) := by
  intro fuel
  induction fuel with
  | zero =>
    intro roundIdx lower upper bs fc
    exact ⟨bs, fc, searchLoop_zero _ _ _ _ _ _ _ _ _ _⟩
  | succ m ih =>
    intro roundIdx lower upper bs fc
    rw [searchLoop_succ]
    split
    · exact ⟨bs, fc, rfl⟩
    · split
      · rename_i a heq
        obtain ⟨blocks, hok, hnone⟩ := hf _
        rw [hok] at heq
        cases heq
      · rename_i blocks heq
        obtain ⟨blocks2, hok, hnone⟩ := hf _
        rw [hok] at heq
        injection heq with hbb
        subst hbb
        split
        · exact ih _ _ _ _ _
        · split
          · rename_i b tx hsearch
            rw [hnone] at hsearch
            cases hsearch
          · split
            · split
              · exact ⟨_, _, rfl⟩
              · exact ih _ _ _ _ _
            · exact ih _ _ _ _ _

theorem searchLoop_adjacent_notFound (fetcher : Fetcher)
    (user systemAddress : String) (expectedAmount : Nat) (targetTime : Int)
    (hf : ∀ ns, ∃ blocks, fetcher ns = Except.ok blocks ∧ blocks ≠ [] ∧
      searchBlocks blocks user systemAddress expectedAmount = none)
    (fuel roundIdx : Nat) (lower u : Anchor) (bs fc : Nat)
    (hadj : u.block ≤ lower.block + 1) :
    ∃ n fc2, searchLoop fetcher user systemAddress expectedAmount targetTime
      fuel roundIdx lower (some u) bs fc = (.notFound n, fc2) ∧ fc2 ≤ fc + 1 := by
  cases fuel with
  | zero =>
    exact ⟨bs, fc, searchLoop_zero _ _ _ _ _ _ _ _ _ _, by omega⟩
  | succ m =>
    rw [searchLoop_succ]
    split
    · exact ⟨bs, fc, rfl, by omega⟩
    · split
      · rename_i a heq
        obtain ⟨blocks, hok, hne, hnone⟩ := hf _
        rw [hok] at heq
        cases heq
      · rename_i blocks heq
        obtain ⟨blocks2, hok, hne, hnone⟩ := hf _
        rw [hok] at heq
        injection heq with hbb
        subst hbb
        split
        · rename_i hbe
          rw [List.isEmpty_iff] at hbe
          exact absurd hbe hne
        · split
          · rename_i b tx hsearch
            rw [hnone] at hsearch
            cases hsearch
          · split
            · rename_i u2 hu2
              obtain ⟨u3, hu3, hle⟩ := tightenUpper_of_some u (bestUpperBlock blocks2 targetTime)
              rw [hu3] at hu2
              injection hu2 with hu23
              subst hu23
              split
              · exact ⟨_, _, rfl, by omega⟩
              · rename_i hnc
                have := tightenLower_block_le lower (bestLowerBlock blocks2 targetTime)
                omega
            · rename_i hupnone
              obtain ⟨u3, hu3, hle⟩ := tightenUpper_of_some u (bestUpperBlock blocks2 targetTime)
              rw [hu3] at hupnone
              cases hupnone

theorem findEvmHash_eq (t : Transfer) (fetcher : Fetcher) (store : List StoredTx)
    (assets : String → Option Nat) :
    findEvmHash t fetcher store assets =
      match findMatchingTx store (cacheQuery t assets) with
      | some dbMatch =>
        (.found
          ⟨⟨dbMatch.hash, dbMatch.explorerHash, dbMatch.fromAddr, dbMatch.assetRecipient,
            dbMatch.amountWei, dbMatch.contractAddress⟩,
            dbMatch.blockNumber, dbMatch.blockHash, dbMatch.blockTimestamp, 0, 0⟩, 0)
      | none =>
        searchLoop fetcher (normalizeAddress t.user) (normalizeAddress t.systemAddress)
          (expectedAmountOf t assets) t.hypercoreTime MAX_ROUNDS 0
          (initialBounds store t.hypercoreTime).1 (initialBounds store t.hypercoreTime).2
          0 0 := rfl

theorem findMatchingTx_props (store : List StoredTx) (p : MatchQuery) (m : StoredTx)
    (h : findMatchingTx store p = some m) :
    m ∈ store ∧ matchQueryFilter p m = true := by
  rw [findMatchingTx] at h
  have hm := pickBy_mem _ _ _ h
  rw [List.mem_filter] at hm
  exact hm

theorem findMatchingTx_some_of_exists (store : List StoredTx) (p : MatchQuery)
    (h : ∃ m ∈ store, matchQueryFilter p m = true) :
    ∃ m, findMatchingTx store p = some m := by
  obtain ⟨m, hmem, hfil⟩ := h
  have hne : store.filter (matchQueryFilter p) ≠ [] := by
    intro hnil
    have hmf : m ∈ store.filter (matchQueryFilter p) := List.mem_filter.mpr ⟨hmem, hfil⟩
    rw [hnil] at hmf
    cases hmf
  rw [findMatchingTx]
  exact Option.isSome_iff_exists.mp
    (pickBy_isSome (fun tx b => decide (tx.blockTimestamp < b.blockTimestamp)) _ hne)

/-- C1: for every transfer and fetcher for which the finder succeeds with a
`FindResult`, the returned transaction satisfies the match predicate — its
`from` equals the transfer's system address, its `assetRecipient` equals the
transfer's recipient, and its amount in smallest units equals
`parseAmount(transfer.amount, evmDecimals)` (all addresses compared in their
normalized, lowercased form) — on both the cache-hit path and the
block-search path. -/
theorem find_result_satisfies_match_predicate (t : Transfer) (fetcher : Fetcher)
    (store : List StoredTx) (assets : String → Option Nat) (r : FindResultM)
    (h : (findEvmHash t fetcher store assets).1 = .found r) :
    normalizeAddress r.tx.fromAddr = normalizeAddress t.systemAddress ∧
    normalizeAddress r.tx.assetRecipient = normalizeAddress t.user ∧
    r.tx.amountWei = expectedAmountOf t assets := by
  rw [findEvmHash_eq] at h
  cases hq : findMatchingTx store (cacheQuery t assets) with
  | some m =>
    rw [hq] at h
    simp only [FindOutcome.found.injEq] at h
    obtain ⟨-, hfil⟩ := findMatchingTx_props store _ m hq
    rw [matchQueryFilter_eq_true_iff] at hfil
    obtain ⟨hfrom, hrecip, hamt, -, -⟩ := hfil
    have hfrom2 : m.fromAddr = normalizeAddress (normalizeAddress t.systemAddress) := by
      simpa [cacheQuery] using hfrom
    have hrecip2 : m.assetRecipient = normalizeAddress (normalizeAddress t.user) := by
      simpa [cacheQuery] using hrecip
    have hamt2 : m.amountWei = expectedAmountOf t assets := by
      simpa [cacheQuery] using hamt
    rw [← h]
    refine ⟨?_, ?_, hamt2⟩
    · rw [hfrom2, normalizeAddress_idem, normalizeAddress_idem]
    · rw [hrecip2, normalizeAddress_idem, normalizeAddress_idem]
  | none =>
    rw [hq] at h
    rcases hres : searchLoop fetcher (normalizeAddress t.user)
        (normalizeAddress t.systemAddress) (expectedAmountOf t assets) t.hypercoreTime
        MAX_ROUNDS 0 (initialBounds store t.hypercoreTime).1
        (initialBounds store t.hypercoreTime).2 0 0 with ⟨o, n⟩
    rw [hres] at h
    simp only at h
    subst h
    have hm := searchLoop_found_matches fetcher _ _ _ _ _ _ _ _ _ _ r n hres
    rw [matchesTx_eq_true_iff] at hm
    exact hm

/-- C2: if the anchor store already contains a transaction matching the
transfer's match tuple with block timestamp in `[coreTime − 5 s,
coreTime + 120 s]`, the finder returns a matching stored anchor immediately
with `rounds = 0` and `blocksSearched = 0`, and the block fetcher is never
invoked (the second component, the fetch-call count, is 0). -/
theorem cache_hit_returns_without_fetch (t : Transfer) (fetcher : Fetcher)
    (store : List StoredTx) (assets : String → Option Nat)
    (h : ∃ m ∈ store,
      m.fromAddr = normalizeAddress t.systemAddress ∧
      m.assetRecipient = normalizeAddress t.user ∧
      m.amountWei = expectedAmountOf t assets ∧
      t.hypercoreTime - 5000 ≤ m.blockTimestamp ∧
      m.blockTimestamp ≤ t.hypercoreTime + DB_SEARCH_WINDOW_MS) :
    ∃ r, findEvmHash t fetcher store assets = (.found r, 0) ∧
      r.rounds = 0 ∧ r.blocksSearched = 0 ∧
      ∃ m ∈ store, matchQueryFilter (cacheQuery t assets) m = true ∧
        r.tx.hash = m.hash ∧ r.block = m.blockNumber ∧ r.blockTime = m.blockTimestamp := by
  have hex : ∃ m ∈ store, matchQueryFilter (cacheQuery t assets) m = true := by
    obtain ⟨m, hmem, h1, h2, h3, h4, h5⟩ := h
    refine ⟨m, hmem, ?_⟩
    rw [matchQueryFilter_eq_true_iff]
    refine ⟨?_, ?_, ?_, ?_, ?_⟩
    · simpa [cacheQuery, normalizeAddress_idem] using h1
    · simpa [cacheQuery, normalizeAddress_idem] using h2
    · simpa [cacheQuery] using h3
    · simpa [cacheQuery] using h4
    · simpa [cacheQuery] using h5
  obtain ⟨m, hq⟩ := findMatchingTx_some_of_exists store _ hex
  obtain ⟨hmem, hfil⟩ := findMatchingTx_props store _ m hq
  refine ⟨⟨⟨m.hash, m.explorerHash, m.fromAddr, m.assetRecipient, m.amountWei,
    m.contractAddress⟩, m.blockNumber, m.blockHash, m.blockTimestamp, 0, 0⟩, ?_, rfl, rfl,
    m, hmem, hfil, rfl, rfl, rfl⟩
  rw [findEvmHash_eq, hq]

/-- C3: the finder's search loop performs at most `MAX_ROUNDS = 20` rounds of
block fetching (the fetch-call count never exceeds 20); when the cache probe
misses and no fetched block ever contains a match, it returns `NotFound`; and
when additionally the initial bounds are already equal or adjacent
(`upper.block ≤ lower.block + 1`) and fetches return non-empty results, it
stops with `NotFound` after at most one fetch round rather than looping. -/
theorem finder_rounds_bounded_and_adjacent_bounds_terminate (t : Transfer)
    (fetcher : Fetcher) (store : List StoredTx) (assets : String → Option Nat) :
    ((findEvmHash t fetcher store assets).2 ≤ MAX_ROUNDS)
    ∧ (findMatchingTx store (cacheQuery t assets) = none →
        (∀ ns, ∃ blocks, fetcher ns = Except.ok blocks ∧
          searchBlocks blocks (normalizeAddress t.user) (normalizeAddress t.systemAddress)
            (expectedAmountOf t assets) = none) →
        ∃ n, (findEvmHash t fetcher store assets).1 = .notFound n)
    ∧ (∀ lo u, initialBounds store t.hypercoreTime = (lo, some u) →
        u.block ≤ lo.block + 1 →
        findMatchingTx store (cacheQuery t assets) = none →
        (∀ ns, ∃ blocks, fetcher ns = Except.ok blocks ∧ blocks ≠ [] ∧
          searchBlocks blocks (normalizeAddress t.user) (normalizeAddress t.systemAddress)
            (expectedAmountOf t assets) = none) →
        ∃ n fc, findEvmHash t fetcher store assets = (.notFound n, fc) ∧ fc ≤ 1) := by
  refine ⟨?_, ?_, ?_⟩
  · rw [findEvmHash_eq]
    cases hq : findMatchingTx store (cacheQuery t assets) with
    | some m => simp [MAX_ROUNDS]
    | none =>
      simpa using searchLoop_fetchCalls_le fetcher (normalizeAddress t.user)
        (normalizeAddress t.systemAddress) (expectedAmountOf t assets) t.hypercoreTime
        MAX_ROUNDS 0 (initialBounds store t.hypercoreTime).1
        (initialBounds store t.hypercoreTime).2 0 0
  · intro hq hf
    rw [findEvmHash_eq, hq]
    obtain ⟨n, m, hres⟩ := searchLoop_notFound_of_no_match fetcher _ _ _ _ hf
      MAX_ROUNDS 0 (initialBounds store t.hypercoreTime).1
      (initialBounds store t.hypercoreTime).2 0 0
    exact ⟨n, by rw [hres]⟩
  · intro lo u hb hadj hq hf
    rw [findEvmHash_eq, hq]
    have h1 : (initialBounds store t.hypercoreTime).1 = lo := by rw [hb]
    have h2 : (initialBounds store t.hypercoreTime).2 = some u := by rw [hb]
    rw [h1, h2]
    obtain ⟨n, fc, hres, hfc⟩ := searchLoop_adjacent_notFound fetcher _ _ _ _ hf
      MAX_ROUNDS 0 lo u 0 0 hadj
    exact ⟨n, fc, hres, by omega⟩

theorem find_result_satisfies_match_predicate_witness :
    (findEvmHash sampleTransfer emptyFetcher [sampleStoredTx] sampleAssets).1 =
      FindOutcome.found sampleResult ∧
    (normalizeAddress sampleResult.tx.fromAddr = normalizeAddress sampleTransfer.systemAddress ∧
      normalizeAddress sampleResult.tx.assetRecipient = normalizeAddress sampleTransfer.user ∧
      sampleResult.tx.amountWei = expectedAmountOf sampleTransfer sampleAssets) :=
  ⟨by decide,
    find_result_satisfies_match_predicate sampleTransfer emptyFetcher [sampleStoredTx]
      sampleAssets sampleResult (by decide)⟩

theorem cache_hit_returns_without_fetch_witness :
    ∃ r, findEvmHash sampleTransfer emptyFetcher [sampleStoredTx] sampleAssets =
        (.found r, 0) ∧
      r.rounds = 0 ∧ r.blocksSearched = 0 ∧
      ∃ m ∈ [sampleStoredTx],
        matchQueryFilter (cacheQuery sampleTransfer sampleAssets) m = true ∧
        r.tx.hash = m.hash ∧ r.block = m.blockNumber ∧ r.blockTime = m.blockTimestamp :=
  cache_hit_returns_without_fetch sampleTransfer emptyFetcher [sampleStoredTx] sampleAssets
    ⟨sampleStoredTx, by decide, by decide, by decide, by decide, by decide, by decide⟩

theorem finder_rounds_bounded_and_adjacent_bounds_terminate_witness :
    ((findEvmHash sampleTransfer emptyFetcher [] sampleAssets).2 ≤ MAX_ROUNDS)
    ∧ (∃ n, (findEvmHash sampleTransfer emptyFetcher [] sampleAssets).1 =
        FindOutcome.notFound n)
    ∧ (∃ n fc, findEvmHash sampleTransfer oneBlockFetcher [sampleLoTx, sampleHiTx]
        sampleAssets = (.notFound n, fc) ∧ fc ≤ 1) :=
  ⟨(finder_rounds_bounded_and_adjacent_bounds_terminate sampleTransfer emptyFetcher []
      sampleAssets).1,
    (finder_rounds_bounded_and_adjacent_bounds_terminate sampleTransfer emptyFetcher []
      sampleAssets).2.1 (by decide) (fun ns => ⟨[], rfl, rfl⟩),
    (finder_rounds_bounded_and_adjacent_bounds_terminate sampleTransfer oneBlockFetcher
      [sampleLoTx, sampleHiTx] sampleAssets).2.2 ⟨10, 500⟩ ⟨11, 2000⟩ (by decide) (by decide)
      (by decide) (fun ns => ⟨[sampleEmptyBlock], rfl, by decide, rfl⟩)⟩

theorem statusOf_cons (d : StoredTransfer) (rest : List StoredTransfer) (h : String) :
    statusOf (d :: rest) h =
      if d.hypercoreHash == h then some d.status else statusOf rest h := by
  by_cases hd : (d.hypercoreHash == h) = true
  · rw [statusOf,
      @List.find?_cons_of_pos StoredTransfer (fun x => x.hypercoreHash == h) d rest hd,
      if_pos hd]
    rfl
  · rw [statusOf,
      @List.find?_cons_of_neg StoredTransfer (fun x => x.hypercoreHash == h) d rest hd,
      if_neg hd]
    rfl

theorem find?_append_of_found {α : Type} (p : α → Bool) (l l2 : List α) (d : α)
    (h : l.find? p = some d) : (l ++ l2).find? p = some d := by
  rw [List.find?_append, h]
  rfl

theorem statusOf_append (store l2 : List StoredTransfer) (h : String)
    (s : TransferStatus) (hs : statusOf store h = some s) :
    statusOf (store ++ l2) h = some s := by
  rw [statusOf] at hs ⊢
  cases hf : store.find? (fun d => d.hypercoreHash == h) with
  | none => rw [hf] at hs; cases hs
  | some d =>
    rw [hf] at hs
    rw [find?_append_of_found _ _ _ _ hf]
    exact hs

theorem statusOf_insertBatch (batch : List Transfer) :
    ∀ (store : List StoredTransfer) (h : String) (s : TransferStatus),
      statusOf store h = some s →
      statusOf (insertTransfersBatch batch store).2 h = some s := by
  induction batch with
  | nil =>
    intro store h s hs
    exact hs
  | cons t rest ih =>
    intro store h s hs
    rw [insertTransfersBatch]
    by_cases hp : hashPresent store t.hypercoreHash
    · rw [if_pos hp]
      exact ih store h s hs
    · rw [if_neg hp]
      exact ih _ h s (statusOf_append store [newTransferDoc t] h s hs)

theorem statusOf_markMatched_eq (h0 : String) (evm : EvmData)
    (store : List StoredTransfer) (h : String) :
    statusOf (markTransferMatched h0 evm store) h =
      if h = h0 then (statusOf store h).map (fun _ => TransferStatus.matched)
      else statusOf store h := by
  induction store with
  | nil =>
    by_cases hh : h = h0 <;> simp [markTransferMatched, statusOf, hh]
  | cons d rest ih =>
    have hcons : markTransferMatched h0 evm (d :: rest) =
        (if d.hypercoreHash == h0 then
          { d with
            hyperevmHash := some evm.hyperevmHash
            hyperevmExplorerHash := some evm.hyperevmExplorerHash
            hyperevmBlock := some evm.hyperevmBlock
            hyperevmBlockHash := some evm.hyperevmBlockHash
            hyperevmTime := some evm.hyperevmTime
            contractAddress := evm.contractAddress
            status := .matched
            failReason := none }
        else d) :: markTransferMatched h0 evm rest := rfl
    rw [hcons]
    by_cases hd0 : (d.hypercoreHash == h0) = true
    · rw [if_pos hd0, statusOf_cons]
      have e0 : d.hypercoreHash = h0 := by simpa using hd0
      by_cases hdh : (d.hypercoreHash == h) = true
      · have eh : d.hypercoreHash = h := by simpa using hdh
        have hh : h = h0 := by rw [← eh, e0]
        simp only [hdh, if_pos hh, statusOf_cons]
        simp [hdh]
      · have hne : h ≠ h0 := by
          intro hh
          exact hdh (by simp [e0, hh])
        simp only [hdh, if_neg hne, statusOf_cons]
        simp only [hdh, Bool.false_eq_true, if_false]
        rw [ih, if_neg hne]
    · rw [if_neg hd0, statusOf_cons, statusOf_cons]
      have ne0 : d.hypercoreHash ≠ h0 := by simpa using hd0
      by_cases hdh : (d.hypercoreHash == h) = true
      · have eh : d.hypercoreHash = h := by simpa using hdh
        have hne : h ≠ h0 := by rw [← eh]; exact ne0
        simp [hdh, hne]
      · simp only [hdh, Bool.false_eq_true, if_false]
        exact ih

theorem statusOf_markFailed_eq (h0 reason : String)
    (store : List StoredTransfer) (h : String) :
    statusOf (markTransferFailed h0 reason store) h =
      if h = h0 then (statusOf store h).map (fun _ => TransferStatus.failed)
      else statusOf store h := by
  induction store with
  | nil =>
    by_cases hh : h = h0 <;> simp [markTransferFailed, statusOf, hh]
  | cons d rest ih =>
    have hcons : markTransferFailed h0 reason (d :: rest) =
        (if d.hypercoreHash == h0 then
          { d with status := .failed, failReason := some reason }
        else d) :: markTransferFailed h0 reason rest := rfl
    rw [hcons]
    by_cases hd0 : (d.hypercoreHash == h0) = true
    · rw [if_pos hd0, statusOf_cons]
      have e0 : d.hypercoreHash = h0 := by simpa using hd0
      by_cases hdh : (d.hypercoreHash == h) = true
      · have eh : d.hypercoreHash = h := by simpa using hdh
        have hh : h = h0 := by rw [← eh, e0]
        simp only [hdh, if_pos hh, statusOf_cons]
        simp [hdh]
      · have hne : h ≠ h0 := by
          intro hh
          exact hdh (by simp [e0, hh])
        simp only [hdh, if_neg hne, statusOf_cons]
        simp only [hdh, Bool.false_eq_true, if_false]
        rw [ih, if_neg hne]
    · rw [if_neg hd0, statusOf_cons, statusOf_cons]
      have ne0 : d.hypercoreHash ≠ h0 := by simpa using hd0
      by_cases hdh : (d.hypercoreHash == h) = true
      · have eh : d.hypercoreHash = h := by simpa using hdh
        have hne : h ≠ h0 := by rw [← eh]; exact ne0
        simp [hdh, hne]
      · simp only [hdh, Bool.false_eq_true, if_false]
        exact ih

/-- C4 (counterexample): `markTransferFailed` does not guard on the current
status — applied to a store whose only transfer is MATCHED, it moves that
transfer to FAILED, so MATCHED is not terminal under the store operations as
the claim states. -/
theorem matched_moved_to_failed_counterexample :
    statusOf [sampleMatchedDoc] "corehash1" = some TransferStatus.matched ∧
    statusOf (markTransferFailed "corehash1" "gone" [sampleMatchedDoc]) "corehash1" =
      some TransferStatus.failed := by decide

/-- C4 (amended): under the system's transfer-store operations, a stored
transfer's status never returns to PENDING, and the only status changes are
to MATCHED by `markTransferMatched` on that hash and to FAILED by
`markTransferFailed` on that hash; however these updates are unconditional on
the current status, so in particular `markTransferFailed` can move a MATCHED
transfer to FAILED. -/
theorem transfer_status_transitions (store : List StoredTransfer) (op : TransferOp)
    (h : String) (s s' : TransferStatus)
    (hs : statusOf store h = some s)
    (hs' : statusOf (applyTransferOp store op) h = some s') :
    (s ≠ .pending → s' ≠ .pending) ∧
    (s' ≠ s →
      (∃ evm, op = .markMatched h evm ∧ s' = .matched) ∨
      (∃ reason, op = .markFailed h reason ∧ s' = .failed)) := by
  cases op with
  | insertBatch batch =>
    have heq : statusOf (applyTransferOp store (.insertBatch batch)) h = some s :=
      statusOf_insertBatch batch store h s hs
    rw [heq] at hs'
    injection hs' with hss
    subst hss
    exact ⟨fun hp => hp, fun hne => absurd rfl hne⟩
  | markMatched h0 evm =>
    rw [applyTransferOp, statusOf_markMatched_eq] at hs'
    by_cases hh : h = h0
    · rw [if_pos hh, hs] at hs'
      have hs2 : some TransferStatus.matched = some s' := hs'
      injection hs2 with hss
      subst hss
      exact ⟨fun _ => by simp, fun _ => Or.inl ⟨evm, by rw [hh], rfl⟩⟩
    · rw [if_neg hh, hs] at hs'
      injection hs' with hss
      subst hss
      exact ⟨fun hp => hp, fun hne => absurd rfl hne⟩
  | markFailed h0 reason =>
    rw [applyTransferOp, statusOf_markFailed_eq] at hs'
    by_cases hh : h = h0
    · rw [if_pos hh, hs] at hs'
      have hs2 : some TransferStatus.failed = some s' := hs'
      injection hs2 with hss
      subst hss
      exact ⟨fun _ => by simp, fun _ => Or.inr ⟨reason, by rw [hh], rfl⟩⟩
    · rw [if_neg hh, hs] at hs'
      injection hs' with hss
      subst hss
      exact ⟨fun hp => hp, fun hne => absurd rfl hne⟩

theorem transfer_status_transitions_witness :
    (TransferStatus.matched ≠ TransferStatus.pending →
      TransferStatus.failed ≠ TransferStatus.pending) ∧
    (TransferStatus.failed ≠ TransferStatus.matched →
      (∃ evm, TransferOp.markFailed "corehash1" "gone" = .markMatched "corehash1" evm ∧
        TransferStatus.failed = .matched) ∨
      (∃ reason, TransferOp.markFailed "corehash1" "gone" = .markFailed "corehash1" reason ∧
        TransferStatus.failed = .failed)) :=
  transfer_status_transitions [sampleMatchedDoc] (.markFailed "corehash1" "gone")
    "corehash1" .matched .failed (by decide) (by decide)

theorem insertTransfersBatch_all_dup :
    ∀ (batch : List Transfer) (store : List StoredTransfer),
      (∀ tr ∈ batch, hashPresent store tr.hypercoreHash = true) →
      insertTransfersBatch batch store = (⟨0, batch.length⟩, store) := by
  intro batch
  induction batch with
  | nil =>
    intro store _
    rfl
  | cons t rest ih =>
    intro store hall
    rw [insertTransfersBatch, if_pos (hall t (List.mem_cons_self t rest))]
    rw [ih store (fun tr htr => hall tr (List.mem_cons_of_mem t htr))]
    rfl

theorem hashPresent_append (store l2 : List StoredTransfer) (h : String)
    (hp : hashPresent store h = true) : hashPresent (store ++ l2) h = true := by
  rw [hashPresent, List.any_append]
  rw [hashPresent] at hp
  rw [hp]
  rfl

theorem hashPresent_insertBatch :
    ∀ (batch : List Transfer) (store : List StoredTransfer) (h : String),
      hashPresent store h = true →
      hashPresent (insertTransfersBatch batch store).2 h = true := by
  intro batch
  induction batch with
  | nil =>
    intro store h hp
    exact hp
  | cons t rest ih =>
    intro store h hp
    rw [insertTransfersBatch]
    by_cases hd : hashPresent store t.hypercoreHash
    · rw [if_pos hd]
      exact ih store h hp
    · rw [if_neg hd]
      exact ih _ h (hashPresent_append store [newTransferDoc t] h hp)

theorem insertBatch_hashes_present :
    ∀ (batch : List Transfer) (store : List StoredTransfer),
      ∀ tr ∈ batch, hashPresent (insertTransfersBatch batch store).2 tr.hypercoreHash = true := by
  intro batch
  induction batch with
  | nil =>
    intro store tr htr
    cases htr
  | cons t rest ih =>
    intro store tr htr
    rw [insertTransfersBatch]
    rcases List.mem_cons.mp htr with heq | hmem
    · subst heq
      by_cases hd : hashPresent store tr.hypercoreHash
      · rw [if_pos hd]
        exact hashPresent_insertBatch rest store tr.hypercoreHash hd
      · rw [if_neg hd]
        refine hashPresent_insertBatch rest _ tr.hypercoreHash ?_
        rw [hashPresent, List.any_append]
        have : hashPresent [newTransferDoc tr] tr.hypercoreHash = true := by
          simp [hashPresent, newTransferDoc]
        rw [hashPresent] at this
        rw [this, Bool.or_true]
    · by_cases hd : hashPresent store t.hypercoreHash
      · rw [if_pos hd]
        exact ih store tr hmem
      · rw [if_neg hd]
        exact ih _ tr hmem

/-- C5: `insertTransfersBatch` is idempotent — calling it again with the same
batch leaves the stored set unchanged and returns
`{inserted: 0, duplicates: |batch|}`; more generally, any batch whose
`hypercoreHash`es are all already present returns
`{inserted: 0, duplicates: n}` without changing the store (and without
failing, since duplicate keys are counted rather than raised). -/
theorem insert_transfers_batch_idempotent :
    (∀ (batch : List Transfer) (store : List StoredTransfer),
      insertTransfersBatch batch (insertTransfersBatch batch store).2 =
        (⟨0, batch.length⟩, (insertTransfersBatch batch store).2))
    ∧ (∀ (batch : List Transfer) (store : List StoredTransfer),
        (∀ tr ∈ batch, hashPresent store tr.hypercoreHash = true) →
        insertTransfersBatch batch store = (⟨0, batch.length⟩, store)) := by
  constructor
  · intro batch store
    exact insertTransfersBatch_all_dup batch _ (insertBatch_hashes_present batch store)
  · intro batch store hall
    exact insertTransfersBatch_all_dup batch store hall

theorem insert_transfers_batch_idempotent_witness :
    insertTransfersBatch [sampleTransfer] (insertTransfersBatch [sampleTransfer] []).2 =
      (⟨0, 1⟩, (insertTransfersBatch [sampleTransfer] []).2) ∧
    insertTransfersBatch [sampleTransfer] [newTransferDoc sampleTransfer] =
      (⟨0, 1⟩, [newTransferDoc sampleTransfer]) :=
  ⟨insert_transfers_batch_idempotent.1 [sampleTransfer] [],
    insert_transfers_batch_idempotent.2 [sampleTransfer] [newTransferDoc sampleTransfer]
      (by decide)⟩

/-- C6 (counterexample): with the queue at the low watermark (100 entries),
a producer iteration that sees a pending count of 0 (≤ BACKFILL_THRESHOLD)
leaves the active fetcher on the object-store variant instead of switching
back to RPC — the switch is not made "regardless of the current queue fill
level". -/
theorem producer_full_queue_no_switch_counterexample :
    (producerStep ⟨List.replicate 100 sampleTransfer, [], .s3⟩ 0 []).fetcher =
      FetcherKind.s3 ∧
    FetcherKind.s3 ≠ FetcherKind.rpc := by decide

/-- C6 (amended): on a refill iteration whose queue-size check passes
(queue < LOW_WATERMARK = 100), the producer sets the active fetcher to the
object-store variant exactly when the pending count exceeds
BACKFILL_THRESHOLD = 10 and to RPC otherwise; when the queue is at or above
the low watermark, the iteration leaves the state (fetcher included)
unchanged. -/
theorem producer_strategy_switch (st : ProducerState) (pendingCount : Nat)
    (pendingDb : List Transfer) :
    (st.queue.length < QUEUE_LOW_WATERMARK →
      (producerStep st pendingCount pendingDb).fetcher =
        (if pendingCount > BACKFILL_THRESHOLD then FetcherKind.s3 else FetcherKind.rpc))
    ∧ (¬ st.queue.length < QUEUE_LOW_WATERMARK →
        producerStep st pendingCount pendingDb = st) := by
  constructor
  · intro hq
    rw [producerStep, if_pos hq]
    dsimp only
    by_cases hp : pendingCount > 0
    · rw [if_pos hp]
    · rw [if_neg hp]
  · intro hq
    rw [producerStep, if_neg hq]

theorem producer_strategy_switch_witness :
    ((producerStep ⟨[], [], .s3⟩ 0 []).fetcher =
      (if (0 : Nat) > BACKFILL_THRESHOLD then FetcherKind.s3 else FetcherKind.rpc)) ∧
    producerStep ⟨List.replicate 100 sampleTransfer, [], .s3⟩ 7 [] =
      ⟨List.replicate 100 sampleTransfer, [], .s3⟩ :=
  ⟨(producer_strategy_switch ⟨[], [], .s3⟩ 0 []).1 (by decide),
    (producer_strategy_switch ⟨List.replicate 100 sampleTransfer, [], .s3⟩ 7 []).2
      (by decide)⟩

theorem flatMap_const_singleton {α β : Type} (e : β) :
    ∀ (l : List α), l.flatMap (fun _ => [e]) = List.replicate l.length e := by
  intro l
  induction l with
  | nil => rfl
  | cons x rest ih => simp [List.replicate_succ, ih]

theorem callsGuardedAux_netRequest (rest : List NetEvent) :
    callsGuardedAux false (.netRequest :: rest) = false := by
  rw [callsGuardedAux]
  exact Bool.false_and _

/-- C7 (counterexample): the trace of a single RPC batch request
(`rpcBatch` in strategies/rpc.ts) contains an outbound network call that is
not preceded by any consultation of the shared backoff — refuting the claim
that every component's outbound call waits on the shared backoff deadline. -/
theorem rpc_call_without_backoff_counterexample :
    callsGuarded rpcBatchTrace = false := by decide

/-- C7 (amended): the shared backoff gate is consulted before the indexer's
outbound CORE API call (`fetchUpdates` waits, then issues the request), but
neither block fetcher consults it: every trace of the RPC fetcher and of the
object-store fetcher consists of outbound requests with no backoff wait. -/
theorem backoff_guards_indexer_only :
    callsGuarded fetchUpdatesTrace = true
    ∧ callsGuarded rpcBatchTrace = false
    ∧ callsGuarded s3FetchBlockTrace = false
    ∧ (∀ n : Nat, callsGuarded (rpcFetchBlocksTrace (n + 1)) = false)
    ∧ (∀ n : Nat, callsGuarded (s3FetchBlocksTrace (n + 1)) = false) := by
  refine ⟨by decide, by decide, by decide, ?_, ?_⟩
  · intro n
    rw [rpcFetchBlocksTrace, rpcBatchTrace, flatMap_const_singleton, List.length_range,
      List.replicate_succ, callsGuarded, callsGuardedAux_netRequest]
  · intro n
    rw [s3FetchBlocksTrace, s3FetchBlockTrace, flatMap_const_singleton, List.length_range,
      List.replicate_succ, callsGuarded, callsGuardedAux_netRequest]

/-- C8: the shared backoff deadline is monotone non-decreasing —
`trigger(retryAfterMs)` replaces it with `max(deadline, now + retryAfterMs)`,
and no sequence of backoff operations ever moves the deadline earlier. -/
theorem backoff_deadline_monotone :
    (∀ (deadline now retryAfterMs : Int),
      backoffStep deadline (.trigger now retryAfterMs) = max deadline (now + retryAfterMs))
    ∧ (∀ (deadline : Int) (ops : List BackoffOp),
        deadline ≤ ops.foldl backoffStep deadline) := by
  constructor
  · intro d now r
    rfl
  · intro d ops
    induction ops generalizing d with
    | nil => exact le_refl d
    | cons op rest ih =>
      rw [List.foldl_cons]
      refine le_trans ?_ (ih (backoffStep d op))
      cases op with
      | wait => exact le_refl d
      | trigger now r => exact le_max_left _ _

/-- C9 (counterexample): when the two bracketing anchors have identical
timestamps, `interpolate` returns the first anchor's block number (100)
unchanged, which differs from extrapolating from that anchor at the default
rate (104) — the estimate is not "obtained by extrapolating from the first
anchor". -/
theorem identical_timestamp_estimate_counterexample :
    interpolate ⟨100, 1000⟩ ⟨200, 1000⟩ 5000 = 100 ∧
    extrapolate ⟨100, 1000⟩ 5000 = 104 ∧
    interpolate ⟨100, 1000⟩ ⟨200, 1000⟩ 5000 ≠ extrapolate ⟨100, 1000⟩ 5000 := by decide

/-- C9 (amended): anchors with identical timestamps are treated as providing
no interval and the estimate is the first (lower) anchor's block number
itself; when only a lower anchor exists, extrapolation uses the default rate
of 1 block per second (`DEFAULT_MS_PER_BLOCK = 1000` ms per block). -/
theorem estimate_edge_policies :
    (∀ (a b : Anchor) (targetTime : Int),
      a.time = b.time → interpolate a b targetTime = a.block)
    ∧ (∀ (a : Anchor) (k : Int),
        extrapolate a (a.time + DEFAULT_MS_PER_BLOCK * k) = max 1 (a.block + k)) := by
  constructor
  · intro a b tt h
    rw [interpolate]
    dsimp only
    rw [if_pos (Or.inr (by omega))]
  · intro a k
    rw [extrapolate]
    have ht : a.time + DEFAULT_MS_PER_BLOCK * k - a.time = 1000 * k := by
      rw [DEFAULT_MS_PER_BLOCK]
      ring
    rw [ht]
    have hj : jsRoundDiv (1000 * k) DEFAULT_MS_PER_BLOCK = k := by
      rw [jsRoundDiv, DEFAULT_MS_PER_BLOCK, if_neg (by norm_num)]
      rw [Int.fdiv_eq_ediv _ (by norm_num)]
      omega
    rw [hj]

theorem estimate_edge_policies_witness :
    interpolate ⟨100, 1000⟩ ⟨200, 1000⟩ 7777 = (100 : Int) ∧
    extrapolate ⟨7, 500⟩ (500 + DEFAULT_MS_PER_BLOCK * 3) = max 1 (7 + 3) :=
  ⟨estimate_edge_policies.1 ⟨100, 1000⟩ ⟨200, 1000⟩ 7777 rfl,
    estimate_edge_policies.2 ⟨7, 500⟩ 3⟩

/-- C10: every address field written to the anchor store is lowercased
before insert (each stored field equals its own lowercasing); the cache
lookup lowercases its query operands (the filter is unchanged by lowercasing
the parameters); the in-memory scan predicate depends on a transaction's
addresses only through their lowercased forms; and consequently the finder's
outcome is independent of the letter-case of the transfer's recipient and
system address. -/
theorem stored_addresses_lowercased_and_finder_case_insensitive :
    (∀ (blocks : List BlockData), ∀ d ∈ storeDocs blocks,
      d.fromAddr = normalizeAddress d.fromAddr ∧
      d.assetRecipient = normalizeAddress d.assetRecipient ∧
      ∀ c, d.contractAddress = some c → c = normalizeAddress c)
    ∧ (∀ (p : MatchQuery) (tx : StoredTx),
        matchQueryFilter p tx =
          matchQueryFilter ⟨normalizeAddress p.fromAddr, normalizeAddress p.assetRecipient,
            p.amountWei, p.minTime, p.maxTime⟩ tx)
    ∧ (∀ (tx tx2 : SystemTx) (user systemAddress : String) (amt : Nat),
        normalizeAddress tx2.fromAddr = normalizeAddress tx.fromAddr →
        normalizeAddress tx2.assetRecipient = normalizeAddress tx.assetRecipient →
        tx2.amountWei = tx.amountWei →
        matchesTx tx2 user systemAddress amt = matchesTx tx user systemAddress amt)
    ∧ (∀ (t t2 : Transfer) (fetcher : Fetcher) (store : List StoredTx)
        (assets : String → Option Nat),
        normalizeAddress t2.user = normalizeAddress t.user →
        normalizeAddress t2.systemAddress = normalizeAddress t.systemAddress →
        t2.hypercoreTime = t.hypercoreTime →
        t2.amount = t.amount →
        findEvmHash t2 fetcher store assets = findEvmHash t fetcher store assets) := by
  refine ⟨?_, ?_, ?_, ?_⟩
  · intro blocks d hd
    rw [storeDocs] at hd
    rw [List.mem_flatMap] at hd
    obtain ⟨block, -, hd⟩ := hd
    rw [List.mem_map] at hd
    obtain ⟨tx, -, hd⟩ := hd
    subst hd
    refine ⟨(normalizeAddress_idem _).symm, (normalizeAddress_idem _).symm, ?_⟩
    intro c hc
    cases hca : tx.contractAddress with
    | none =>
      rw [hca] at hc
      cases hc
    | some c0 =>
      rw [hca] at hc
      have hc2 : some (normalizeAddress c0) = some c := hc
      injection hc2 with hc0
      rw [← hc0, normalizeAddress_idem]
  · intro p tx
    simp [matchQueryFilter, normalizeAddress_idem]
  · intro tx tx2 user systemAddress amt h1 h2 h3
    simp only [matchesTx, h1, h2, h3]
  · intro t t2 fetcher store assets h1 h2 h3 h4
    have he : expectedAmountOf t2 assets = expectedAmountOf t assets := by
      rw [expectedAmountOf, expectedAmountOf, h2, h4]
    have hcq : cacheQuery t2 assets = cacheQuery t assets := by
      rw [cacheQuery, cacheQuery, h1, h2, h3, he]
    rw [findEvmHash_eq, findEvmHash_eq, hcq, he, h1, h2, h3]

theorem stored_addresses_lowercased_witness :
    (sampleDoc.fromAddr = normalizeAddress sampleDoc.fromAddr ∧
      sampleDoc.assetRecipient = normalizeAddress sampleDoc.assetRecipient ∧
      ∀ c, sampleDoc.contractAddress = some c → c = normalizeAddress c) ∧
    findEvmHash sampleTransferUpper emptyFetcher [] sampleAssets =
      findEvmHash sampleTransfer emptyFetcher [] sampleAssets :=
  ⟨stored_addresses_lowercased_and_finder_case_insensitive.1 [sampleBlockWithTx]
      sampleDoc (by decide),
    stored_addresses_lowercased_and_finder_case_insensitive.2.2.2 sampleTransfer
      sampleTransferUpper emptyFetcher [] sampleAssets (by decide) (by decide) rfl rfl⟩

end Coredrain
